import Mathlib

/-!
Shallow embedding of the `x-draggable` interaction engine (`src/index.ts`)
and proofs about its geometry, drop-registry, debounce, reorder and
persistence behaviour.  Machine pixel coordinates are modelled as `Int`;
time (for the 200ms debounce window) as `Nat` milliseconds.
-/

namespace XDraggable

/-- Geometric record for a registered drop-pool entry or a query point
(source type `PositionItem`; the optional `el` back-reference, which
pool entries and query points never carry, is modelled separately in
`ChildInfo`). -/
structure PositionItem where
  top : Int
  left : Int
  width : Int
  height : Int
deriving DecidableEq, Repr

/-- Boolean constructor options of `DraggableOptions`; the optional string
identifiers (`dragId`, `resizeId`) and `direction` are passed separately
where the source reads them. -/
structure DraggableOptions where
  isChildren : Bool
  isAllowOut : Bool
  isAllowIn : Bool
  isSort : Bool
deriving DecidableEq, Repr

/-- Snapshot of element and parent geometry (source field `info` of the
`XDraggable` class, filled by `updateElementInfo`). -/
structure ElementInfo where
  currentTop : Int
  currentLeft : Int
  currentWidth : Int
  currentHeight : Int
  offsetTop : Int
  offsetLeft : Int
  parentTop : Int
  parentLeft : Int
  parentWidth : Int
  parentHeight : Int
deriving DecidableEq, Repr

/-- Mirror of `updateElementInfo`: the parent fields are read from the
container element, the `current*` fields from `$current` when set, and the
grab-offset fields from the mouse event (`e.offsetX` / `e.offsetY`) when
one is supplied; everything else stays `0`. -/
def updateElementInfo (el : PositionItem) (current : Option PositionItem)
    (offset : Option (Int × Int)) : ElementInfo :=
  { currentTop := match current with | some c => c.top | none => 0
    currentLeft := match current with | some c => c.left | none => 0
    currentWidth := match current with | some c => c.width | none => 0
    currentHeight := match current with | some c => c.height | none => 0
    offsetTop := match offset with | some o => o.2 | none => 0
    offsetLeft := match offset with | some o => o.1 | none => 0
    parentTop := el.top
    parentLeft := el.left
    parentWidth := el.width
    parentHeight := el.height }

/-- Mirror of `computeElementPosition` (source lines 345-367): candidate
position from the pointer page position minus the grab offset, clamped into
the parent rectangle exactly when drag-out is disallowed and children-mode
is on. -/
def computeElementPosition (options : DraggableOptions) (info : ElementInfo)
    (pageX pageY : Int) : Int × Int :=
  let top := pageY - info.offsetTop
  let left := pageX - info.offsetLeft
  if !options.isAllowOut && options.isChildren then
    let maxTop := info.parentTop + info.parentHeight - info.currentHeight
    let top' := if top < info.parentTop then info.parentTop
                else if top > maxTop then maxTop else top
    let maxLeft := info.parentLeft + info.parentWidth - info.currentWidth
    let left' := if left < info.parentLeft then info.parentLeft
                 else if left > maxLeft then maxLeft else left
    (top', left')
  else
    (top, left)

/-- Resize direction (source option `direction`; `noDir` models the empty
string, meaning no resize handle). -/
inductive Direction where
  | noDir
  | right
  | left
  | top
  | bottom
deriving DecidableEq, Repr

/-- Mirror of `computeElementSize` (source lines 369-393, without the
persistence side effect, which `computeElementSizeWithSave` adds): the
direction-specific size from the pointer page position and the snapshot
taken at resize start. -/
def computeElementSize (info : ElementInfo) (direction : Direction)
    (pageX pageY : Int) : Int :=
  match direction with
  | .right => info.parentWidth + (pageX - (info.currentLeft + info.parentWidth))
  | .left => info.parentWidth + (info.currentLeft - pageX)
  | .top => info.parentHeight + (info.currentTop - pageY)
  | .bottom => info.parentHeight + (pageY - (info.currentTop + info.parentHeight))
  | .noDir => 0

/-- Mirror of `setElementSize` (source lines 395-402): width is written for
left/right handles, height for top/bottom handles; position styles are not
touched. -/
def setElementSize (el : PositionItem) (direction : Direction) (size : Int) :
    PositionItem :=
  match direction with
  | .left => { el with width := size }
  | .right => { el with width := size }
  | .top => { el with height := size }
  | .bottom => { el with height := size }
  | .noDir => el

/-- Snapshot taken by the `mousedown` branch of `handleResize`: the source
sets `$current = this.el` and then calls `updateElementInfo(e)`, so the
`current*` fields coincide with the parent fields. -/
def resizeStartInfo (el : PositionItem) (offsetX offsetY : Int) : ElementInfo :=
  updateElementInfo el (some el) (some (offsetX, offsetY))

/-- One `computeElementSize` call together with the persistent writes it
performs: the `isSave` branch writes `localStorage` key
`drag-<resizeId>-size` with the decimal string of the size. -/
def computeElementSizeWithSave (resizeId : String) (info : ElementInfo)
    (direction : Direction) (pageX pageY : Int) (isSave : Bool) :
    Int × List (String × String) :=
  let size := computeElementSize info direction pageX pageY
  (size, if isSave then [("drag-" ++ resizeId ++ "-size", toString size)] else [])

/-- Persistent writes of one full resize gesture as driven by
`handleResize`: the `mousedown` snapshot, any number of `mousemove` steps
(`isSave = false`) and the final `mouseup` step (`isSave = true`). -/
def resizeGestureWrites (resizeId : String) (el : PositionItem) (ox oy : Int)
    (direction : Direction) (moves : List (Int × Int)) (upX upY : Int) :
    List (String × String) :=
  let info := resizeStartInfo el ox oy
  ((moves.map fun m =>
      (computeElementSizeWithSave resizeId info direction m.1 m.2 false).2).flatten)
    ++ (computeElementSizeWithSave resizeId info direction upX upY true).2

lemma flatten_map_nil {β : Type} (l : List β) :
    (l.map fun _ => ([] : List (String × String))).flatten = [] := by
  induction l with
  | nil => rfl
  | cons x xs ih => simp [ih]

/-- C1 (amended): with drag-out disallowed and children-mode on, and the
grabbed element no larger than its container, the computed top/left lie in
the claimed vertical and horizontal clamp ranges. -/
theorem computeElementPosition_clamped (options : DraggableOptions)
    (info : ElementInfo) (pageX pageY : Int)
    (hOut : options.isAllowOut = false) (hCh : options.isChildren = true)
    (hH : info.currentHeight ≤ info.parentHeight)
    (hW : info.currentWidth ≤ info.parentWidth) :
    info.parentTop ≤ (computeElementPosition options info pageX pageY).1 ∧
    (computeElementPosition options info pageX pageY).1
      ≤ info.parentTop + info.parentHeight - info.currentHeight ∧
    info.parentLeft ≤ (computeElementPosition options info pageX pageY).2 ∧
    (computeElementPosition options info pageX pageY).2
      ≤ info.parentLeft + info.parentWidth - info.currentWidth := by
  simp only [computeElementPosition, hOut, hCh, Bool.not_false, Bool.and_self,
    if_pos]
  split_ifs <;> simp_all <;> omega

/-- Witness for C1 at a concrete container (0,0,100,100), element size
10x10, grab offset (0,0) and pointer (500, -500). -/
theorem computeElementPosition_clamped_witness :
    (0 : Int) ≤ (computeElementPosition ⟨true, false, false, false⟩
        ⟨0, 0, 10, 10, 0, 0, 0, 0, 100, 100⟩ 500 (-500)).1 ∧
    (computeElementPosition ⟨true, false, false, false⟩
        ⟨0, 0, 10, 10, 0, 0, 0, 0, 100, 100⟩ 500 (-500)).1 ≤ 0 + 100 - 10 ∧
    (0 : Int) ≤ (computeElementPosition ⟨true, false, false, false⟩
        ⟨0, 0, 10, 10, 0, 0, 0, 0, 100, 100⟩ 500 (-500)).2 ∧
    (computeElementPosition ⟨true, false, false, false⟩
        ⟨0, 0, 10, 10, 0, 0, 0, 0, 100, 100⟩ 500 (-500)).2 ≤ 0 + 100 - 10 :=
  computeElementPosition_clamped ⟨true, false, false, false⟩
    ⟨0, 0, 10, 10, 0, 0, 0, 0, 100, 100⟩ 500 (-500) rfl rfl (by decide)
    (by decide)

/-- C1 counterexample: with a grabbed element (height 20) taller than its
container (height 10), the claimed interval `[parentTop, parentTop +
parentHeight - currentHeight]` is `[0, -10]` and the returned top `-10`
does not lie within it. -/
theorem computeElementPosition_clamp_cex :
    ¬ ((0 : Int) ≤ (computeElementPosition ⟨true, false, false, false⟩
          ⟨0, 0, 0, 20, 0, 0, 0, 0, 0, 10⟩ 0 0).1 ∧
       (computeElementPosition ⟨true, false, false, false⟩
          ⟨0, 0, 0, 20, 0, 0, 0, 0, 0, 10⟩ 0 0).1 ≤ 0 + 10 - 20) := by
  decide

/-- C7: at resize start `$current = el`, so the four direction formulas
anchored at the opposite edge hold exactly as specified; writing the right
size leaves the left edge (and top) untouched; the concrete instance
left 50, width 300, pointer x 400, direction right computes 350. -/
theorem computeElementSize_spec (el : PositionItem) (ox oy pageX pageY : Int) :
    computeElementSize (resizeStartInfo el ox oy) Direction.right pageX pageY
      = el.width + (pageX - (el.left + el.width)) ∧
    computeElementSize (resizeStartInfo el ox oy) Direction.left pageX pageY
      = el.width + (el.left - pageX) ∧
    computeElementSize (resizeStartInfo el ox oy) Direction.top pageX pageY
      = el.height + (el.top - pageY) ∧
    computeElementSize (resizeStartInfo el ox oy) Direction.bottom pageX pageY
      = el.height + (pageY - (el.top + el.height)) ∧
    (setElementSize el Direction.right
        (computeElementSize (resizeStartInfo el ox oy) Direction.right pageX
          pageY)).left = el.left ∧
    (setElementSize el Direction.right
        (computeElementSize (resizeStartInfo el ox oy) Direction.right pageX
          pageY)).top = el.top ∧
    computeElementSize (resizeStartInfo ⟨0, 50, 300, 100⟩ 0 0) Direction.right
        400 0 = 350 := by
  refine ⟨rfl, rfl, rfl, rfl, rfl, rfl, by decide⟩

/-- C8: a resize gesture performs exactly one persistent write, at
`mouseup`, under key `drag-<resizeId>-size`, whose value is the decimal
string of the final computed size; no write happens on intermediate
moves.  The concrete instance: size 350 and resizeId panelA store the
string 350 under key drag-panelA-size. -/
theorem resizeGestureWrites_single (resizeId : String) (el : PositionItem)
    (ox oy : Int) (direction : Direction) (moves : List (Int × Int))
    (upX upY : Int) :
    resizeGestureWrites resizeId el ox oy direction moves upX upY
      = [("drag-" ++ resizeId ++ "-size",
          toString (computeElementSize (resizeStartInfo el ox oy) direction
            upX upY))] ∧
    resizeGestureWrites "panelA" ⟨0, 50, 300, 100⟩ 0 0 Direction.right
        [(200, 0), (320, 5)] 400 0 = [("drag-panelA-size", "350")] := by
  constructor
  · simp only [resizeGestureWrites, computeElementSizeWithSave, if_neg,
      Bool.false_eq_true, not_false_eq_true, if_pos, flatten_map_nil,
      List.nil_append]
  · decide

/-- Strict point-in-rectangle test of `checkPoolsCoincide` (source lines
250-255, comparisons in source order). -/
def poolContains (pool : PositionItem) (info : PositionItem) : Bool :=
  decide (pool.top < info.top) && decide (pool.top + pool.height > info.top) &&
  decide (pool.left < info.left) && decide (pool.left + pool.width > info.left)

/-- Mirror of `checkPoolsCoincide` (source lines 247-260): scan the
registered pools in registration order (the object-key insertion order of
`draggablePools` for the non-numeric ids added once by `initDragPoolInfo`)
and return the first strictly containing entry's id, or the empty string
when none matches. -/
def checkPoolsCoincide : List (String × PositionItem) → PositionItem → String
  | [], _ => ""
  | (key, pool) :: rest, info =>
      if poolContains pool info then key else checkPoolsCoincide rest info

/-- Mirror of `initDragPoolInfo` (source lines 128-144): registration is a
no-op unless `isAllowIn` is set with a truthy (non-empty) `dragId`; a fresh
id is appended, re-registration of an existing id overwrites its bounds in
place. -/
def initDragPoolInfo (pools : List (String × PositionItem))
    (isAllowIn : Bool) (dragId : Option String) (bounds : PositionItem) :
    List (String × PositionItem) :=
  if !isAllowIn then pools
  else
    match dragId with
    | none => pools
    | some id =>
        if id = "" then pools
        else if pools.any (fun e => e.1 = id) then
          pools.map fun e => if e.1 = id then (id, bounds) else e
        else pools ++ [(id, bounds)]

lemma checkPoolsCoincide_of_forall_not (pools : List (String × PositionItem))
    (p : PositionItem)
    (h : ∀ e ∈ pools, poolContains e.2 p = false) :
    checkPoolsCoincide pools p = "" := by
  induction pools with
  | nil => rfl
  | cons e rest ih =>
      obtain ⟨k, r⟩ := e
      have hk := h (k, r) (List.mem_cons_self _ _)
      simp only [checkPoolsCoincide, hk, Bool.false_eq_true, if_neg,
        not_false_eq_true]
      exact ih fun e he => h e (List.mem_cons_of_mem _ he)

lemma checkPoolsCoincide_first (l1 : List (String × PositionItem))
    (k : String) (r : PositionItem) (l2 : List (String × PositionItem))
    (p : PositionItem)
    (h1 : ∀ e ∈ l1, poolContains e.2 p = false)
    (hc : poolContains r p = true) :
    checkPoolsCoincide (l1 ++ (k, r) :: l2) p = k := by
  induction l1 with
  | nil => simp [checkPoolsCoincide, hc]
  | cons e rest ih =>
      obtain ⟨k', r'⟩ := e
      have hk := h1 (k', r') (List.mem_cons_self _ _)
      simp only [List.cons_append, checkPoolsCoincide, hk, Bool.false_eq_true,
        if_neg, not_false_eq_true]
      exact ih fun e he => h1 e (List.mem_cons_of_mem _ he)

lemma checkPoolsCoincide_cases (pools : List (String × PositionItem))
    (p : PositionItem) :
    checkPoolsCoincide pools p = "" ∨
      ∃ e ∈ pools, poolContains e.2 p = true ∧
        checkPoolsCoincide pools p = e.1 := by
  induction pools with
  | nil => exact Or.inl rfl
  | cons e rest ih =>
      obtain ⟨k, r⟩ := e
      by_cases hc : poolContains r p = true
      · exact Or.inr ⟨(k, r), List.mem_cons_self _ _, hc, by
          simp [checkPoolsCoincide, hc]⟩
      · have hstep : checkPoolsCoincide ((k, r) :: rest) p
            = checkPoolsCoincide rest p := by
          simp [checkPoolsCoincide, hc]
        rcases ih with h | ⟨e', he', hce', heq⟩
        · exact Or.inl (hstep.trans h)
        · exact Or.inr ⟨e', List.mem_cons_of_mem _ he', hce',
            hstep.trans heq⟩

lemma exists_first_containing (pools : List (String × PositionItem))
    (p : PositionItem) (e0 : String × PositionItem) (hmem : e0 ∈ pools)
    (hc : poolContains e0.2 p = true) :
    ∃ l1 e1 l2, pools = l1 ++ e1 :: l2 ∧ poolContains e1.2 p = true ∧
      ∀ e ∈ l1, poolContains e.2 p = false := by
  induction pools with
  | nil => cases hmem
  | cons e rest ih =>
      by_cases hce : poolContains e.2 p = true
      · exact ⟨[], e, rest, rfl, hce, by simp⟩
      · have hmem' : e0 ∈ rest := by
          rcases List.mem_cons.mp hmem with h | h
          · exact absurd (h ▸ hc) hce
          · exact h
        obtain ⟨l1, e1, l2, heq, hc1, hall⟩ := ih hmem'
        refine ⟨e :: l1, e1, l2, by simp [heq], hc1, ?_⟩
        intro e' he'
        rcases List.mem_cons.mp he' with h | h
        · simpa [h] using (Bool.eq_false_iff.mpr hce)
        · exact hall e' h

/-- C2: the registry lookup returns the identifier of the unique strictly
containing entry when exactly one contains the point; the empty string when
no entry contains it; and, for two overlapping entries that both contain
the point (no earlier entry containing it), the one registered first. -/
theorem checkPoolsCoincide_lookup (pools : List (String × PositionItem))
    (p : PositionItem) :
    (∀ e ∈ pools, poolContains e.2 p = true →
      (∀ e' ∈ pools, poolContains e'.2 p = true → e' = e) →
      checkPoolsCoincide pools p = e.1) ∧
    ((∀ e ∈ pools, poolContains e.2 p = false) →
      checkPoolsCoincide pools p = "") ∧
    (∀ l1 e1 l2 e2 l3, pools = l1 ++ e1 :: l2 ++ e2 :: l3 →
      poolContains e1.2 p = true → poolContains e2.2 p = true →
      (∀ e ∈ l1, poolContains e.2 p = false) →
      checkPoolsCoincide pools p = e1.1) := by
  refine ⟨?_, checkPoolsCoincide_of_forall_not pools p, ?_⟩
  · intro e he hce huniq
    obtain ⟨l1, e1, l2, heq, hc1, hall⟩ :=
      exists_first_containing pools p e he hce
    have he1 : e1 ∈ pools := by
      rw [heq]; exact List.mem_append_right _ (List.mem_cons_self _ _)
    have : e1 = e := huniq e1 he1 hc1
    subst this
    rw [heq]
    exact checkPoolsCoincide_first l1 e1.1 e1.2 l2 p hall hc1
  · intro l1 e1 l2 e2 l3 heq hc1 _ hall
    rw [heq]
    simpa using checkPoolsCoincide_first l1 e1.1 e1.2 (l2 ++ e2 :: l3) p
      hall hc1

/-- Witness for C2: pools A (0,0,100,100) and B (50,50,100,100); the point
(120,120) lies only in B, (200,200) in none, and (60,60) in both, where the
first-registered A wins. -/
theorem checkPoolsCoincide_lookup_witness :
    checkPoolsCoincide [("A", ⟨0, 0, 100, 100⟩), ("B", ⟨50, 50, 100, 100⟩)]
        ⟨120, 120, 0, 0⟩ = "B" ∧
    checkPoolsCoincide [("A", ⟨0, 0, 100, 100⟩), ("B", ⟨50, 50, 100, 100⟩)]
        ⟨200, 200, 0, 0⟩ = "" ∧
    checkPoolsCoincide [("A", ⟨0, 0, 100, 100⟩), ("B", ⟨50, 50, 100, 100⟩)]
        ⟨60, 60, 0, 0⟩ = "A" := by
  refine ⟨?_, ?_, ?_⟩
  · exact (checkPoolsCoincide_lookup _ _).1 ("B", ⟨50, 50, 100, 100⟩)
      (by decide) (by decide) (by decide)
  · exact (checkPoolsCoincide_lookup _ _).2.1 (by decide)
  · exact (checkPoolsCoincide_lookup _ _).2.2 [] ("A", ⟨0, 0, 100, 100⟩) []
      ("B", ⟨50, 50, 100, 100⟩) [] rfl (by decide) (by decide) (by decide)

/-- Payload of the external `drag` callback (source: `{ id, index }`). -/
structure DragPayload where
  id : String
  index : Int
deriving DecidableEq, Repr

/-- Mirror of the `mouseup` branch of `handleDraggable` (source lines
216-233): when drag-out is allowed, the registry is queried at the release
page point and the registered `drag` handler fires with the matched id and
the current tracked drag index; the proxy element is removed
unconditionally (second component). -/
def handleDraggableMouseup (pools : List (String × PositionItem))
    (isAllowOut hasDragHandler : Bool) (dragIndex : Int)
    (pageX pageY : Int) : Option DragPayload × Bool :=
  let callback :=
    if isAllowOut then
      let dragId := checkPoolsCoincide pools ⟨pageY, pageX, 0, 0⟩
      if dragId ≠ "" ∧ hasDragHandler = true then
        some ⟨dragId, dragIndex⟩
      else none
    else none
  (callback, true)

lemma checkPoolsCoincide_ne_empty (pools : List (String × PositionItem))
    (p : PositionItem) (hKeys : ∀ e ∈ pools, e.1 ≠ "")
    (h : ∃ e ∈ pools, poolContains e.2 p = true) :
    checkPoolsCoincide pools p ≠ "" := by
  obtain ⟨e0, he0, hc0⟩ := h
  obtain ⟨l1, e1, l2, heq, hc1, hall⟩ :=
    exists_first_containing pools p e0 he0 hc0
  have he1 : e1 ∈ pools := by
    rw [heq]; exact List.mem_append_right _ (List.mem_cons_self _ _)
  have hres : checkPoolsCoincide pools p = e1.1 := by
    rw [heq]
    exact checkPoolsCoincide_first l1 e1.1 e1.2 l2 p hall hc1
  rw [hres]
  exact hKeys e1 he1

/-- C6 (amended): with drag-out allowed, a registered `drag` handler and
only non-empty registered ids, the callback fires exactly when some
registered rectangle strictly contains the release page point; its payload
is the matched (first containing) identifier together with the drag index
tracked at release; and the proxy is removed in every case. -/
theorem handleDraggableMouseup_spec (pools : List (String × PositionItem))
    (dragIndex pageX pageY : Int)
    (hKeys : ∀ e ∈ pools, e.1 ≠ "") :
    ((handleDraggableMouseup pools true true dragIndex pageX pageY).1.isSome
        = true ↔
      ∃ e ∈ pools, poolContains e.2 ⟨pageY, pageX, 0, 0⟩ = true) ∧
    ((∃ e ∈ pools, poolContains e.2 ⟨pageY, pageX, 0, 0⟩ = true) →
      (handleDraggableMouseup pools true true dragIndex pageX pageY).1
        = some ⟨checkPoolsCoincide pools ⟨pageY, pageX, 0, 0⟩, dragIndex⟩) ∧
    ((∀ e ∈ pools, poolContains e.2 ⟨pageY, pageX, 0, 0⟩ = false) →
      (handleDraggableMouseup pools true true dragIndex pageX pageY).1
        = none) ∧
    (handleDraggableMouseup pools true true dragIndex pageX pageY).2
      = true := by
  refine ⟨⟨?_, ?_⟩, ?_, ?_, rfl⟩
  · intro hsome
    by_contra hnone
    push_neg at hnone
    have hempty : checkPoolsCoincide pools ⟨pageY, pageX, 0, 0⟩ = "" :=
      checkPoolsCoincide_of_forall_not pools _ (by
        intro e he
        exact Bool.eq_false_iff.mpr (hnone e he))
    simp [handleDraggableMouseup, hempty] at hsome
  · intro hex
    have hne := checkPoolsCoincide_ne_empty pools _ hKeys hex
    simp [handleDraggableMouseup, hne]
  · intro hex
    have hne := checkPoolsCoincide_ne_empty pools _ hKeys hex
    simp [handleDraggableMouseup, hne]
  · intro hnone
    have hempty : checkPoolsCoincide pools ⟨pageY, pageX, 0, 0⟩ = "" :=
      checkPoolsCoincide_of_forall_not pools _ hnone
    simp [handleDraggableMouseup, hempty]

/-- Witness for C6: a single pool A with bounds (100,100,200,100) and a
release at page point (150,160) fires the callback with id A and the
tracked index 2. -/
theorem handleDraggableMouseup_spec_witness :
    (handleDraggableMouseup [("A", ⟨100, 100, 200, 100⟩)] true true 2
        150 160).1
      = some ⟨checkPoolsCoincide [("A", ⟨100, 100, 200, 100⟩)]
          ⟨160, 150, 0, 0⟩, 2⟩ ∧
    checkPoolsCoincide [("A", ⟨100, 100, 200, 100⟩)] ⟨160, 150, 0, 0⟩
      = "A" :=
  ⟨(handleDraggableMouseup_spec [("A", ⟨100, 100, 200, 100⟩)] 2 150 160
      (by decide)).2.1 (by decide), rfl⟩

/-- State of the lodash `debounce(fn, 200, { leading: true })` wrapper that
guards `checkChildrenSort` (source lines 262-291).  With `leading: true`
and the lodash default `trailing: true`, the wrapper keeps the time the
active wait window expires, the coalesced last arguments awaiting the
trailing edge, and the invocations performed so far (time, argument). -/
structure DebState (α : Type) where
  timerDeadline : Option Nat
  pendingArgs : Option α
  invocations : List (Nat × α)

/-- One submission to the debounced function at time `call.1` with argument
`call.2`.  A timer that expired before this submission fires first (the
trailing edge replays the coalesced arguments at the deadline).  Then: with
no active timer the submission invokes immediately (leading edge) and arms
a wait-long timer; with an active timer the submission only replaces the
pending arguments and extends the deadline to `wait` past this last call,
matching lodash `timerExpired` rescheduling by `wait - (now -
lastCallTime)`. -/
def debStep {α : Type} (wait : Nat) (s : DebState α) (call : Nat × α) :
    DebState α :=
  let t := call.1
  let s1 : DebState α :=
    match s.timerDeadline with
    | some d =>
        if d ≤ t then
          { timerDeadline := none, pendingArgs := none,
            invocations :=
              match s.pendingArgs with
              | some b => s.invocations ++ [(d, b)]
              | none => s.invocations }
        else s
    | none => s
  match s1.timerDeadline with
  | none =>
      { timerDeadline := some (t + wait), pendingArgs := none,
        invocations := s1.invocations ++ [(t, call.2)] }
  | some _ =>
      { timerDeadline := some (t + wait), pendingArgs := some call.2,
        invocations := s1.invocations }

/-- Let the final armed timer expire after the last submission: the
trailing edge fires the pending coalesced arguments, if any. -/
def debFlush {α : Type} (s : DebState α) : List (Nat × α) :=
  match s.timerDeadline, s.pendingArgs with
  | some d, some b => s.invocations ++ [(d, b)]
  | _, _ => s.invocations

/-- All invocations (time, argument) the debounced `checkChildrenSort`
performs for a strictly increasing sequence of submissions, including the
final trailing edge. -/
def debounceRun {α : Type} (wait : Nat) (calls : List (Nat × α)) :
    List (Nat × α) :=
  debFlush (calls.foldl (debStep wait) ⟨none, none, []⟩)

/-- C3 (amended): the first submission after a quiet period executes
immediately on the leading edge; a second submission arriving inside the
open 200ms window does not execute immediately, but neither is it dropped:
its arguments are coalesced and replayed once on the trailing edge, 200ms
after the last submission (lodash `debounce` with `leading: true` keeps
its default `trailing: true`). -/
theorem checkChildrenSort_debounce_spec {α : Type} (t0 t1 : Nat) (a b : α)
    (h01 : t0 < t1) (hwin : t1 < t0 + 200) :
    debounceRun 200 [(t0, a)] = [(t0, a)] ∧
    debounceRun 200 [(t0, a), (t1, b)] = [(t0, a), (t1 + 200, b)] := by
  constructor
  · rfl
  · have hne : ¬ (t0 + 200 ≤ t1) := by omega
    simp [debounceRun, debStep, debFlush, hne]

/-- Witness for C3 at submissions (0, a) and (100, b): the leading edge
runs at 0 and the trailing edge replays b at 300. -/
theorem checkChildrenSort_debounce_spec_witness :
    debounceRun 200 [(0, 7)] = [(0, 7)] ∧
    debounceRun 200 [(0, 7), (100, 8)] = [(0, 7), (300, 8)] :=
  checkChildrenSort_debounce_spec 0 100 7 8 (by decide) (by decide)

/-- C3 counterexample: the submission at time 100 (inside the 200ms window
opened at 0) is not dropped — its argument is replayed by the trailing
edge at time 300, so a submission inside the window is queued for later
replay. -/
theorem checkChildrenSort_debounce_cex :
    debounceRun 200 [(0, 7), (100, 8)] = [(0, 7), (300, 8)] ∧
    debounceRun 200 [(0, 7), (100, 8)] ≠ [(0, 7)] := by
  constructor
  · rfl
  · decide

/-- A container child as the sort algorithm sees it: its CSS `order` value
(written by `initChildren` and by the reorder swap) and its offset
geometry. -/
structure ChildElem where
  order : Int
  top : Int
  left : Int
  width : Int
  height : Int
deriving DecidableEq, Repr

/-- Sibling-table entry (source `PositionItem` including the `el`
back-reference, which `updateChildrenInfo` always sets): `el` is the index
of the backing child in the container's child list. -/
structure ChildInfo where
  top : Int
  left : Int
  width : Int
  height : Int
  el : Nat
deriving DecidableEq, Repr

/-- Mirror of the loop of `updateChildrenInfo` (source lines 325-343): the
table maps an order value to the entry of the last child carrying it (a
later loop iteration overwrites an earlier assignment to the same key).
The auxiliary parameter threads the child's position for the `el`
back-reference. -/
def updateChildrenInfoAux : List ChildElem → Nat → Int → Option ChildInfo
  | [], _, _ => none
  | c :: cs, i, o =>
      match updateChildrenInfoAux cs (i + 1) o with
      | some p => some p
      | none =>
          if c.order = o then some ⟨c.top, c.left, c.width, c.height, i⟩
          else none

/-- The sibling table rebuilt from the (live) child list, as a lookup
function from order value to entry. -/
def updateChildrenInfo (children : List ChildElem) : Int → Option ChildInfo :=
  fun o => updateChildrenInfoAux children 0 o

/-- Write one child's CSS `order` (source: `....el!.style.order = ...`);
out-of-range indices leave the list unchanged. -/
def setChildOrder : List ChildElem → Nat → Int → List ChildElem
  | [], _, _ => []
  | c :: cs, 0, o => { c with order := o } :: cs
  | c :: cs, Nat.succ j, o => c :: setChildOrder cs j o

/-- The mutable sorting state of one container during a drag: the live
children, the sibling table `childrenInfos` and the tracked `dragIndex`. -/
structure SortState where
  children : List ChildElem
  childrenInfos : Int → Option ChildInfo
  dragIndex : Int

/-- The `index` local of `checkChildrenSort` (source lines 264-274): -1,
or `dragIndex - 1` when that entry exists with recorded top at least the
drag top minus 10, or else `dragIndex + 1` when that entry exists with
recorded top at most the drag top plus 10. -/
def sortTargetIndex (infos : Int → Option ChildInfo) (di : Int) (t : Int) :
    Int :=
  match infos (di - 1) with
  | some pUp =>
      if pUp.top ≥ t - 10 then di - 1
      else
        match infos (di + 1) with
        | some pDown => if pDown.top ≤ t + 10 then di + 1 else -1
        | none => -1
  | none =>
      match infos (di + 1) with
      | some pDown => if pDown.top ≤ t + 10 then di + 1 else -1
      | none => -1

/-- Mirror of the debounced body of `checkChildrenSort` (source lines
262-291; the 200ms gating is modelled by `debounceRun`): when a target was
chosen and an entry exists at `dragIndex`, the two backing children's
`order` styles are written crosswise, the two table entries are swapped
and then the whole table is rebuilt from the live children (the rebuild of
line 284 overwrites the entry swap of lines 280-282, so only the rebuilt
table is kept), and `dragIndex` follows the dragged element.  The source
dereferences `childrenInfos[index].el!`, which exists whenever `index ≥ 0`
was produced by `sortTargetIndex`; the defensive `none` branch below
mirrors that this situation cannot arise. -/
def checkChildrenSortStep (s : SortState) (t : Int) : SortState :=
  let index := sortTargetIndex s.childrenInfos s.dragIndex t
  if index ≥ 0 then
    match s.childrenInfos s.dragIndex, s.childrenInfos index with
    | some pd, some pt' =>
        let children' :=
          setChildOrder (setChildOrder s.children pd.el index) pt'.el
            s.dragIndex
        { children := children',
          childrenInfos := updateChildrenInfo children',
          dragIndex := index }
    | _, _ => s
  else s

/-- All executed reorder checks of one drag, in order of their drag tops. -/
def runSort (s : SortState) (ts : List Int) : SortState :=
  ts.foldl checkChildrenSortStep s

/-- Mirror of the child loop of `initChildren` (source lines 89-94): the
i-th child gets `order = i` (and the matching `drag-index` attribute). -/
def initChildrenAux : List ChildElem → Nat → List ChildElem
  | [], _ => []
  | c :: cs, i => { c with order := (i : Int) } :: initChildrenAux cs (i + 1)

def initChildren (cs : List ChildElem) : List ChildElem :=
  initChildrenAux cs 0

/-- State after `initChildren` with `isSort = true`: orders 0..n-1 assigned
and the sibling table built by `updateChildrenInfo`. -/
def initSortState (cs : List ChildElem) (d0 : Int) : SortState :=
  ⟨initChildren cs, updateChildrenInfo (initChildren cs), d0⟩

/-- State after `initChildren` with `isSort = false`: orders are assigned
but `updateChildrenInfo` is never called, so the sibling table stays
empty. -/
def initStateNoSort (cs : List ChildElem) (d0 : Int) : SortState :=
  ⟨initChildren cs, fun _ => none, d0⟩

/-- A whole children-mode sorted drag (source `handleDraggable`): the
`mousedown` parses the grabbed child's `order` into `dragIndex` (missing
resolves to -1), each executed reorder check runs at its drag top, and the
`mouseup` queries the drop pools at the release page point. -/
def runDragSession (pools : List (String × PositionItem))
    (cs : List ChildElem) (grabbed : Nat) (moveTops : List Int)
    (pageX pageY : Int) : Option DragPayload × Bool :=
  let dragIndex :=
    match cs[grabbed]? with
    | some c => c.order
    | none => -1
  let s1 := runSort ⟨cs, updateChildrenInfo cs, dragIndex⟩ moveTops
  handleDraggableMouseup pools true true s1.dragIndex pageX pageY

lemma getElem?_setChildOrder (l : List ChildElem) (j : Nat) (o : Int)
    (i : Nat) :
    (setChildOrder l j o)[i]? =
      if i = j then l[i]?.map fun c => { c with order := o } else l[i]? := by
  induction l generalizing i j with
  | nil => simp [setChildOrder]
  | cons c cs ih =>
      cases j with
      | zero =>
          cases i with
          | zero => simp [setChildOrder]
          | succ s => simp [setChildOrder]
      | succ m =>
          cases i with
          | zero => simp [setChildOrder]
          | succ s => simpa [setChildOrder] using ih m s

lemma updateChildrenInfoAux_isSome (cs : List ChildElem) (i : Nat) (o : Int) :
    (updateChildrenInfoAux cs i o).isSome = true ↔ ∃ c ∈ cs, c.order = o := by
  induction cs generalizing i with
  | nil => simp [updateChildrenInfoAux]
  | cons c cs ih =>
      simp only [updateChildrenInfoAux]
      rcases h : updateChildrenInfoAux cs (i + 1) o with _ | p
      · constructor
        · intro hs
          by_cases hc : c.order = o
          · exact ⟨c, List.mem_cons_self _ _, hc⟩
          · simp [hc] at hs
        · intro ⟨c', hc', ho⟩
          rcases List.mem_cons.mp hc' with rfl | hmem
          · simp [ho]
          · have : (updateChildrenInfoAux cs (i + 1) o).isSome = true :=
              (ih (i + 1)).mpr ⟨c', hmem, ho⟩
            rw [h] at this
            cases this
      · constructor
        · intro _
          obtain ⟨c', hc', ho⟩ := (ih (i + 1)).mp (by simp [h])
          exact ⟨c', List.mem_cons_of_mem _ hc', ho⟩
        · intro _
          simp

lemma updateChildrenInfoAux_eq_none (cs : List ChildElem) (i : Nat) (o : Int)
    (h : ∀ c ∈ cs, c.order ≠ o) : updateChildrenInfoAux cs i o = none := by
  rcases hx : updateChildrenInfoAux cs i o with _ | p
  · rfl
  · have : (updateChildrenInfoAux cs i o).isSome = true := by simp [hx]
    obtain ⟨c, hc, ho⟩ := (updateChildrenInfoAux_isSome cs i o).mp this
    exact absurd ho (h c hc)

lemma updateChildrenInfoAux_some (cs : List ChildElem) :
    ∀ (i : Nat) (o : Int) (p : ChildInfo),
      updateChildrenInfoAux cs i o = some p →
      i ≤ p.el ∧ ∃ c, cs[p.el - i]? = some c ∧ c.order = o ∧
        p = ⟨c.top, c.left, c.width, c.height, p.el⟩ := by
  induction cs with
  | nil =>
      intro i o p h
      simp [updateChildrenInfoAux] at h
  | cons c cs ih =>
      intro i o p h
      simp only [updateChildrenInfoAux] at h
      rcases hx : updateChildrenInfoAux cs (i + 1) o with _ | q
      · rw [hx] at h
        by_cases hc : c.order = o
        · rw [if_pos hc] at h
          obtain rfl := Option.some.inj h
          exact ⟨Nat.le_refl _, c, by simp, hc, rfl⟩
        · rw [if_neg hc] at h
          cases h
      · rw [hx] at h
        have hqp : q = p := Option.some.inj h
        obtain ⟨hle, c', hc', ho', hp⟩ := ih (i + 1) o q hx
        rw [← hqp]
        refine ⟨by omega, c', ?_, ho', hp⟩
        have hsub : q.el - i = (q.el - (i + 1)) + 1 := by omega
        rw [hsub]
        simpa using hc'

lemma updateChildrenInfoAux_unique (cs : List ChildElem) (m : Nat) (o : Int)
    (i : Nat) (c : ChildElem) (hc : cs[i]? = some c) (ho : c.order = o)
    (huniq : ∀ i' c', cs[i']? = some c' → c'.order = o → i' = i) :
    updateChildrenInfoAux cs m o = some ⟨c.top, c.left, c.width, c.height,
      m + i⟩ := by
  induction cs generalizing m i with
  | nil => simp at hc
  | cons d ds ih =>
      simp only [updateChildrenInfoAux]
      cases i with
      | zero =>
          obtain rfl := Option.some.inj (by simpa using hc)
          have hnone : updateChildrenInfoAux ds (m + 1) o = none := by
            apply updateChildrenInfoAux_eq_none
            intro c' hc' ho'
            obtain ⟨k, hk⟩ := List.mem_iff_getElem?.mp hc'
            have := huniq (k + 1) c' (by simpa using hk) ho'
            omega
          rw [hnone]
          simp [ho]
      | succ j =>
          have hcj : ds[j]? = some c := by simpa using hc
          have huniq' : ∀ i' c', ds[i']? = some c' → c'.order = o → i' = j := by
            intro i' c' hc' ho'
            have := huniq (i' + 1) c' (by simpa using hc') ho'
            omega
          have := ih (m + 1) j hcj huniq'
          rw [this]
          simp
          omega

lemma nodup_getElem?_inj (l : List Int) (hnd : l.Nodup) (i j : Nat) (v : Int)
    (hi : l[i]? = some v) (hj : l[j]? = some v) : i = j := by
  induction l generalizing i j with
  | nil => simp at hi
  | cons a as ih =>
      obtain ⟨hna, hnd'⟩ := List.nodup_cons.mp hnd
      cases i with
      | zero =>
          cases j with
          | zero => rfl
          | succ j' =>
              obtain rfl := Option.some.inj (by simpa using hi)
              have : a ∈ as :=
                List.mem_iff_getElem?.mpr ⟨j', by simpa using hj⟩
              exact absurd this hna
      | succ i' =>
          cases j with
          | zero =>
              obtain rfl := Option.some.inj (by simpa using hj)
              have : a ∈ as :=
                List.mem_iff_getElem?.mpr ⟨i', by simpa using hi⟩
              exact absurd this hna
          | succ j' =>
              have := ih hnd' i' j' (by simpa using hi) (by simpa using hj)
              omega

lemma order_getElem?_inj (l : List ChildElem)
    (hnd : (l.map ChildElem.order).Nodup) (i j : Nat) (c c' : ChildElem)
    (hi : l[i]? = some c) (hj : l[j]? = some c')
    (ho : c.order = c'.order) : i = j := by
  apply nodup_getElem?_inj (l.map ChildElem.order) hnd i j c.order
  · rw [List.getElem?_map, hi]
    rfl
  · rw [List.getElem?_map, hj, ho]
    rfl

lemma getElem?_setswap (l : List ChildElem) (j k : Nat) (a b : Int)
    (i : Nat) :
    (setChildOrder (setChildOrder l j b) k a)[i]? =
      if i = k then l[i]?.map (fun c => { c with order := a })
      else if i = j then l[i]?.map (fun c => { c with order := b })
      else l[i]? := by
  rw [getElem?_setChildOrder, getElem?_setChildOrder]
  by_cases hik : i = k <;> by_cases hij : i = j
  · have hkj : k = j := hik.symm.trans hij
    rcases hg : l[i]? with _ | c <;> simp [hik, hij, hkj, hg]
  · have hkj : ¬ k = j := fun h => hij (hik.trans h)
    rcases hg : l[i]? with _ | c <;> simp [hik, hij, hkj, hg]
  · rcases hg : l[i]? with _ | c <;> simp [hik, hij, hg]
  · rcases hg : l[i]? with _ | c <;> simp [hik, hij, hg]

lemma mem_setswap_iff (l : List ChildElem) (j k : Nat) (cj ck : ChildElem)
    (a b : Int) (hj : l[j]? = some cj) (hk : l[k]? = some ck)
    (hja : cj.order = a) (hkb : ck.order = b) (o : Int) :
    (∃ c ∈ setChildOrder (setChildOrder l j b) k a, c.order = o) ↔
      ∃ c ∈ l, c.order = o := by
  constructor
  · rintro ⟨c, hc, rfl⟩
    obtain ⟨i, hi⟩ := List.mem_iff_getElem?.mp hc
    rw [getElem?_setswap] at hi
    by_cases hik : i = k
    · rw [if_pos hik, hik, hk] at hi
      obtain rfl : ({ ck with order := a } : ChildElem) = c := by
        simpa using hi
      exact ⟨cj, List.mem_iff_getElem?.mpr ⟨j, hj⟩, by simp [hja]⟩
    · rw [if_neg hik] at hi
      by_cases hij : i = j
      · rw [if_pos hij, hij, hj] at hi
        obtain rfl : ({ cj with order := b } : ChildElem) = c := by
          simpa using hi
        exact ⟨ck, List.mem_iff_getElem?.mpr ⟨k, hk⟩, by simp [hkb]⟩
      · rw [if_neg hij] at hi
        exact ⟨c, List.mem_iff_getElem?.mpr ⟨i, hi⟩, rfl⟩
  · rintro ⟨c, hc, rfl⟩
    obtain ⟨i, hi⟩ := List.mem_iff_getElem?.mp hc
    by_cases hik : i = k
    · rw [hik] at hi
      have hck : c = ck := Option.some.inj (hi.symm.trans hk)
      by_cases hjk : j = k
      · have hcjk : cj = ck := by
          rw [hjk] at hj
          exact Option.some.inj (hj.symm.trans hk)
        refine ⟨{ ck with order := a }, List.mem_iff_getElem?.mpr ⟨k, ?_⟩,
          ?_⟩
        · rw [getElem?_setswap, if_pos rfl, hk]
          rfl
        · simp [← hja, hcjk, hck]
      · refine ⟨{ cj with order := b }, List.mem_iff_getElem?.mpr ⟨j, ?_⟩,
          ?_⟩
        · rw [getElem?_setswap, if_neg hjk, if_pos rfl, hj]
          rfl
        · simp [← hkb, hck]
    · by_cases hij : i = j
      · rw [hij] at hi
        have hcj : c = cj := Option.some.inj (hi.symm.trans hj)
        refine ⟨{ ck with order := a }, List.mem_iff_getElem?.mpr ⟨k, ?_⟩,
          ?_⟩
        · rw [getElem?_setswap, if_pos rfl, hk]
          rfl
        · simp [← hja, hcj]
      · refine ⟨c, List.mem_iff_getElem?.mpr ⟨i, ?_⟩, rfl⟩
        rw [getElem?_setswap, if_neg hik, if_neg hij]
        exact hi

lemma updateChildrenInfo_some_getElem (children : List ChildElem) (o : Int)
    (p : ChildInfo) (h : updateChildrenInfo children o = some p) :
    ∃ c, children[p.el]? = some c ∧ c.order = o ∧
      p = ⟨c.top, c.left, c.width, c.height, p.el⟩ := by
  obtain ⟨_, c, hc, ho, hp⟩ :=
    updateChildrenInfoAux_some children 0 o p h
  exact ⟨c, by simpa using hc, ho, hp⟩

lemma updateChildrenInfo_after_swap (children : List ChildElem)
    (hnodup : (children.map ChildElem.order).Nodup) (di i : Int)
    (pd pt' : ChildInfo)
    (hd : updateChildrenInfo children di = some pd)
    (ht : updateChildrenInfo children i = some pt') (hne : di ≠ i) :
    updateChildrenInfo
        (setChildOrder (setChildOrder children pd.el i) pt'.el di) i
      = some pd ∧
    updateChildrenInfo
        (setChildOrder (setChildOrder children pd.el i) pt'.el di) di
      = some pt' := by
  obtain ⟨cd, hcd, hcdo, hpd⟩ := updateChildrenInfo_some_getElem children di
    pd hd
  obtain ⟨ct, hct, hcto, hpt⟩ := updateChildrenInfo_some_getElem children i
    pt' ht
  have hjk : pd.el ≠ pt'.el := by
    intro hEq
    rw [hEq, hct] at hcd
    obtain rfl := Option.some.inj hcd
    exact hne (hcdo ▸ hcto ▸ rfl)
  have hget : ∀ (m : Nat),
      (setChildOrder (setChildOrder children pd.el i) pt'.el di)[m]? =
        if m = pt'.el then children[m]?.map (fun c => { c with order := di })
        else if m = pd.el then
          children[m]?.map (fun c => { c with order := i })
        else children[m]? := fun m => getElem?_setswap children pd.el pt'.el
    di i m
  constructor
  · have hgetj : (setChildOrder (setChildOrder children pd.el i)
        pt'.el di)[pd.el]? = some { cd with order := i } := by
      rw [hget pd.el, if_neg hjk, if_pos rfl, hcd]
      rfl
    have huniq : ∀ m c', (setChildOrder (setChildOrder children pd.el i)
        pt'.el di)[m]? = some c' → c'.order = i → m = pd.el := by
      intro m c' hm ho'
      rw [hget m] at hm
      by_cases hmk : m = pt'.el
      · rw [if_pos hmk, hmk, hct] at hm
        obtain rfl : ({ ct with order := di } : ChildElem) = c' := by
          simpa using hm
        exact absurd (by simpa using ho' : di = i) hne
      · rw [if_neg hmk] at hm
        by_cases hmj : m = pd.el
        · exact hmj
        · rw [if_neg hmj] at hm
          have := order_getElem?_inj children hnodup m pt'.el c' ct hm hct
            (ho'.trans hcto.symm)
          exact absurd this hmk
    have := updateChildrenInfoAux_unique _ 0 i pd.el
      { cd with order := i } hgetj rfl huniq
    rw [show updateChildrenInfo (setChildOrder (setChildOrder children pd.el
        i) pt'.el di) i = updateChildrenInfoAux (setChildOrder (setChildOrder
        children pd.el i) pt'.el di) 0 i from rfl, this, hpd]
    simp
  · have hgetk : (setChildOrder (setChildOrder children pd.el i)
        pt'.el di)[pt'.el]? = some { ct with order := di } := by
      rw [hget pt'.el, if_pos rfl, hct]
      rfl
    have huniq : ∀ m c', (setChildOrder (setChildOrder children pd.el i)
        pt'.el di)[m]? = some c' → c'.order = di → m = pt'.el := by
      intro m c' hm ho'
      rw [hget m] at hm
      by_cases hmk : m = pt'.el
      · exact hmk
      · rw [if_neg hmk] at hm
        by_cases hmj : m = pd.el
        · rw [if_pos hmj, hmj, hcd] at hm
          obtain rfl : ({ cd with order := i } : ChildElem) = c' := by
            simpa using hm
          exact absurd (by simpa using ho' : i = di).symm hne
        · rw [if_neg hmj] at hm
          have := order_getElem?_inj children hnodup m pd.el c' cd hm hcd
            (ho'.trans hcdo.symm)
          exact absurd this hmj
    have := updateChildrenInfoAux_unique _ 0 di pt'.el
      { ct with order := di } hgetk rfl huniq
    rw [show updateChildrenInfo (setChildOrder (setChildOrder children pd.el
        i) pt'.el di) di = updateChildrenInfoAux (setChildOrder
        (setChildOrder children pd.el i) pt'.el di) 0 di from rfl, this, hpt]
    simp

lemma sortTargetIndex_up (infos : Int → Option ChildInfo) (di t : Int)
    (pUp : ChildInfo) (h : infos (di - 1) = some pUp)
    (ht : pUp.top ≥ t - 10) : sortTargetIndex infos di t = di - 1 := by
  simp only [sortTargetIndex, h]
  rw [if_pos ht]

lemma sortTargetIndex_down (infos : Int → Option ChildInfo) (di t : Int)
    (pDown : ChildInfo)
    (hup : ∀ p, infos (di - 1) = some p → p.top < t - 10)
    (h : infos (di + 1) = some pDown) (ht : pDown.top ≤ t + 10) :
    sortTargetIndex infos di t = di + 1 := by
  rcases hu : infos (di - 1) with _ | p
  · simp only [sortTargetIndex, hu, h]
    rw [if_pos ht]
  · have hlt := hup p hu
    simp only [sortTargetIndex, hu, h]
    rw [if_neg (by omega), if_pos ht]

lemma sortTargetIndex_neg (infos : Int → Option ChildInfo) (di t : Int)
    (hup : ∀ p, infos (di - 1) = some p → p.top < t - 10)
    (hdown : ∀ p, infos (di + 1) = some p → p.top > t + 10) :
    sortTargetIndex infos di t = -1 := by
  rcases hu : infos (di - 1) with _ | p
  · rcases hd : infos (di + 1) with _ | q
    · simp only [sortTargetIndex, hu, hd]
    · have := hdown q hd
      simp only [sortTargetIndex, hu, hd]
      rw [if_neg (by omega)]
  · have hlt := hup p hu
    rcases hd : infos (di + 1) with _ | q
    · simp only [sortTargetIndex, hu, hd]
      rw [if_neg (by omega)]
    · have := hdown q hd
      simp only [sortTargetIndex, hu, hd]
      rw [if_neg (by omega), if_neg (by omega)]

lemma checkChildrenSortStep_eq_swap (s : SortState) (t : Int)
    (pd pt' : ChildInfo)
    (hge : sortTargetIndex s.childrenInfos s.dragIndex t ≥ 0)
    (hpd : s.childrenInfos s.dragIndex = some pd)
    (hpt : s.childrenInfos (sortTargetIndex s.childrenInfos s.dragIndex t)
      = some pt') :
    checkChildrenSortStep s t =
      { children := setChildOrder (setChildOrder s.children pd.el
          (sortTargetIndex s.childrenInfos s.dragIndex t)) pt'.el
          s.dragIndex,
        childrenInfos := updateChildrenInfo (setChildOrder (setChildOrder
          s.children pd.el (sortTargetIndex s.childrenInfos s.dragIndex t))
          pt'.el s.dragIndex),
        dragIndex := sortTargetIndex s.childrenInfos s.dragIndex t } := by
  simp only [checkChildrenSortStep]
  rw [if_pos hge, hpd, hpt]

lemma checkChildrenSortStep_eq_self_of_neg (s : SortState) (t : Int)
    (h : sortTargetIndex s.childrenInfos s.dragIndex t < 0) :
    checkChildrenSortStep s t = s := by
  simp only [checkChildrenSortStep]
  rw [if_neg (by omega)]

lemma checkChildrenSortStep_eq_self_of_none (s : SortState) (t : Int)
    (h : s.childrenInfos s.dragIndex = none) :
    checkChildrenSortStep s t = s := by
  simp only [checkChildrenSortStep, h]
  split
  · rfl
  · rfl

lemma checkChildrenSortStep_eq_self_of_target_none (s : SortState) (t : Int)
    (h : s.childrenInfos (sortTargetIndex s.childrenInfos s.dragIndex t)
      = none) : checkChildrenSortStep s t = s := by
  rcases hpd : s.childrenInfos s.dragIndex with _ | pd
  · exact checkChildrenSortStep_eq_self_of_none s t hpd
  · simp only [checkChildrenSortStep, hpd, h]
    split
    · rfl
    · rfl

/-- Invariant tying the sibling table to the live children: the table is
the rebuild of the children, and the children's order values cover exactly
the range [0, n). -/
def sortInv (n : Nat) (s : SortState) : Prop :=
  s.childrenInfos = updateChildrenInfo s.children ∧
  ∀ o : Int, (∃ c ∈ s.children, c.order = o) ↔ (0 ≤ o ∧ o < (n : Int))

lemma initChildrenAux_exists_order (cs : List ChildElem) :
    ∀ (i : Nat) (o : Int),
      (∃ c ∈ initChildrenAux cs i, c.order = o) ↔
        ((i : Int) ≤ o ∧ o < (i : Int) + cs.length) := by
  induction cs with
  | nil =>
      intro i o
      simp only [initChildrenAux, List.not_mem_nil]
      constructor
      · rintro ⟨c, hc, -⟩
        exact absurd hc (by simp)
      · intro h
        simp only [List.length_nil] at h
        omega
  | cons c cs ih =>
      intro i o
      simp only [initChildrenAux, List.mem_cons, List.length_cons]
      constructor
      · rintro ⟨c', hc', rfl⟩
        rcases hc' with rfl | hm
        · simp only [Nat.cast_ofNat]
          push_cast
          omega
        · have := (ih (i + 1) c'.order).mp ⟨c', hm, rfl⟩
          push_cast at this ⊢
          omega
      · rintro ⟨h1, h2⟩
        by_cases ho : o = (i : Int)
        · exact ⟨{ c with order := (i : Int) }, Or.inl rfl, ho.symm⟩
        · obtain ⟨c', hm, ho'⟩ := (ih (i + 1) o).mpr (by push_cast; omega)
          exact ⟨c', Or.inr hm, ho'⟩

lemma sortInv_step (n : Nat) (s : SortState) (t : Int) (h : sortInv n s) :
    sortInv n (checkChildrenSortStep s t) := by
  obtain ⟨hcons, hset⟩ := h
  by_cases hge : sortTargetIndex s.childrenInfos s.dragIndex t ≥ 0
  · rcases hpd : s.childrenInfos s.dragIndex with _ | pd
    · rw [checkChildrenSortStep_eq_self_of_none s t hpd]
      exact ⟨hcons, hset⟩
    · rcases hpt : s.childrenInfos (sortTargetIndex s.childrenInfos
          s.dragIndex t) with _ | pt'
      · rw [checkChildrenSortStep_eq_self_of_target_none s t hpt]
        exact ⟨hcons, hset⟩
      · rw [checkChildrenSortStep_eq_swap s t pd pt' hge hpd hpt]
        refine ⟨rfl, ?_⟩
        intro o
        have hpd' : updateChildrenInfo s.children s.dragIndex = some pd :=
          hcons ▸ hpd
        have hpt'' : updateChildrenInfo s.children (sortTargetIndex
            s.childrenInfos s.dragIndex t) = some pt' := hcons ▸ hpt
        obtain ⟨cd, hcd, hcdo, -⟩ :=
          updateChildrenInfo_some_getElem s.children s.dragIndex pd hpd'
        obtain ⟨ct, hct, hcto, -⟩ :=
          updateChildrenInfo_some_getElem s.children (sortTargetIndex
            s.childrenInfos s.dragIndex t) pt' hpt''
        rw [mem_setswap_iff s.children pd.el pt'.el cd ct s.dragIndex
          (sortTargetIndex s.childrenInfos s.dragIndex t) hcd hct hcdo hcto
          o]
        exact hset o
  · rw [checkChildrenSortStep_eq_self_of_neg s t (by omega)]
    exact ⟨hcons, hset⟩

lemma sortInv_runSort (n : Nat) (ts : List Int) :
    ∀ s, sortInv n s → sortInv n (runSort s ts) := by
  induction ts with
  | nil => intro s h; exact h
  | cons t ts ih => intro s h; exact ih _ (sortInv_step n s t h)

/-- C5: starting from initialization with `isSort`, after any finite
sequence of executed reorder checks the sibling table has an entry exactly
at the order values 0, ..., childCount - 1: no duplicates, no gaps. -/
theorem runSort_keys_range (cs : List ChildElem) (d0 : Int) (ts : List Int)
    (o : Int) :
    ((runSort (initSortState cs d0) ts).childrenInfos o).isSome = true ↔
      (0 ≤ o ∧ o < (cs.length : Int)) := by
  have hinit : sortInv cs.length (initSortState cs d0) := by
    refine ⟨rfl, ?_⟩
    intro o'
    simpa [initChildren] using initChildrenAux_exists_order cs 0 o'
  obtain ⟨hcons, hset⟩ := sortInv_runSort cs.length ts _ hinit
  rw [hcons]
  rw [show updateChildrenInfo (runSort (initSortState cs d0) ts).children o
      = updateChildrenInfoAux (runSort (initSortState cs d0) ts).children 0
        o from rfl]
  rw [updateChildrenInfoAux_isSome]
  exact hset o

/-- C4 (amended): the reorder decision prefers moving up (entry at
`dragIndex - 1` with recorded top at least the drag top minus 10), then
moving down (entry at `dragIndex + 1` with recorded top at most the drag
top plus 10), else changes nothing; when a target is chosen AND the table
also has an entry at `dragIndex` itself, the two backing children's order
values are written crosswise, the entries at the two keys are exchanged
(the table is rebuilt from the rewritten children) and the tracked drag
index becomes the target; without an entry at `dragIndex` nothing
changes. -/
theorem checkChildrenSort_decision (s : SortState) (t : Int)
    (hcons : s.childrenInfos = updateChildrenInfo s.children)
    (hnodup : (s.children.map ChildElem.order).Nodup)
    (horders : ∀ c ∈ s.children, 0 ≤ c.order) :
    (∀ pUp pd, s.childrenInfos (s.dragIndex - 1) = some pUp →
      pUp.top ≥ t - 10 → s.childrenInfos s.dragIndex = some pd →
      (checkChildrenSortStep s t).dragIndex = s.dragIndex - 1 ∧
      (checkChildrenSortStep s t).children
        = setChildOrder (setChildOrder s.children pd.el (s.dragIndex - 1))
            pUp.el s.dragIndex ∧
      (checkChildrenSortStep s t).childrenInfos (s.dragIndex - 1)
        = some pd ∧
      (checkChildrenSortStep s t).childrenInfos s.dragIndex = some pUp) ∧
    (∀ pDown pd, (∀ p, s.childrenInfos (s.dragIndex - 1) = some p →
        p.top < t - 10) →
      s.childrenInfos (s.dragIndex + 1) = some pDown → pDown.top ≤ t + 10 →
      s.childrenInfos s.dragIndex = some pd →
      (checkChildrenSortStep s t).dragIndex = s.dragIndex + 1 ∧
      (checkChildrenSortStep s t).children
        = setChildOrder (setChildOrder s.children pd.el (s.dragIndex + 1))
            pDown.el s.dragIndex ∧
      (checkChildrenSortStep s t).childrenInfos (s.dragIndex + 1)
        = some pd ∧
      (checkChildrenSortStep s t).childrenInfos s.dragIndex = some pDown) ∧
    ((∀ p, s.childrenInfos (s.dragIndex - 1) = some p → p.top < t - 10) →
     (∀ p, s.childrenInfos (s.dragIndex + 1) = some p → p.top > t + 10) →
      checkChildrenSortStep s t = s) ∧
    (s.childrenInfos s.dragIndex = none → checkChildrenSortStep s t = s) := by
  refine ⟨?_, ?_, ?_, checkChildrenSortStep_eq_self_of_none s t⟩
  · intro pUp pd hup htop hpd
    have htarget := sortTargetIndex_up s.childrenInfos s.dragIndex t pUp hup
      htop
    have hge : sortTargetIndex s.childrenInfos s.dragIndex t ≥ 0 := by
      rw [htarget]
      obtain ⟨cUp, hcUp, hcUpo, -⟩ := updateChildrenInfo_some_getElem
        s.children (s.dragIndex - 1) pUp (hcons ▸ hup)
      have := horders cUp (List.mem_iff_getElem?.mpr ⟨pUp.el, hcUp⟩)
      omega
    have hstep := checkChildrenSortStep_eq_swap s t pd pUp hge hpd
      (by rw [htarget]; exact hup)
    have hswap := updateChildrenInfo_after_swap s.children hnodup
      s.dragIndex (s.dragIndex - 1) pd pUp (hcons ▸ hpd) (hcons ▸ hup)
      (by omega)
    rw [hstep]
    exact ⟨htarget, by rw [htarget], by rw [htarget]; exact hswap.1,
      by rw [htarget]; exact hswap.2⟩
  · intro pDown pd hupNone hdown htop hpd
    have htarget := sortTargetIndex_down s.childrenInfos s.dragIndex t pDown
      hupNone hdown htop
    have hge : sortTargetIndex s.childrenInfos s.dragIndex t ≥ 0 := by
      rw [htarget]
      obtain ⟨cDown, hcDown, hcDowno, -⟩ := updateChildrenInfo_some_getElem
        s.children (s.dragIndex + 1) pDown (hcons ▸ hdown)
      have := horders cDown (List.mem_iff_getElem?.mpr ⟨pDown.el, hcDown⟩)
      omega
    have hstep := checkChildrenSortStep_eq_swap s t pd pDown hge hpd
      (by rw [htarget]; exact hdown)
    have hswap := updateChildrenInfo_after_swap s.children hnodup
      s.dragIndex (s.dragIndex + 1) pd pDown (hcons ▸ hpd) (hcons ▸ hdown)
      (by omega)
    rw [hstep]
    exact ⟨htarget, by rw [htarget], by rw [htarget]; exact hswap.1,
      by rw [htarget]; exact hswap.2⟩
  · intro hupNone hdownNone
    exact checkChildrenSortStep_eq_self_of_neg s t
      (by rw [sortTargetIndex_neg s.childrenInfos s.dragIndex t hupNone
        hdownNone]; omega)

/-- Witness for C4: three children with orders 0,1,2 and tops 0,50,100,
drag index 1, drag top 5: the entry at order 0 (top 0 at least -5) wins,
the step retargets the drag index to 0 and exchanges the entries at keys 0
and 1. -/
theorem checkChildrenSort_decision_witness :
    (checkChildrenSortStep ⟨[⟨0, 0, 0, 10, 10⟩, ⟨1, 50, 0, 10, 10⟩,
        ⟨2, 100, 0, 10, 10⟩], updateChildrenInfo [⟨0, 0, 0, 10, 10⟩,
        ⟨1, 50, 0, 10, 10⟩, ⟨2, 100, 0, 10, 10⟩], 1⟩ 5).dragIndex = 0 ∧
    (checkChildrenSortStep ⟨[⟨0, 0, 0, 10, 10⟩, ⟨1, 50, 0, 10, 10⟩,
        ⟨2, 100, 0, 10, 10⟩], updateChildrenInfo [⟨0, 0, 0, 10, 10⟩,
        ⟨1, 50, 0, 10, 10⟩, ⟨2, 100, 0, 10, 10⟩], 1⟩ 5).childrenInfos 0
      = some ⟨50, 0, 10, 10, 1⟩ ∧
    (checkChildrenSortStep ⟨[⟨0, 0, 0, 10, 10⟩, ⟨1, 50, 0, 10, 10⟩,
        ⟨2, 100, 0, 10, 10⟩], updateChildrenInfo [⟨0, 0, 0, 10, 10⟩,
        ⟨1, 50, 0, 10, 10⟩, ⟨2, 100, 0, 10, 10⟩], 1⟩ 5).childrenInfos 1
      = some ⟨0, 0, 10, 10, 0⟩ := by
  have h := (checkChildrenSort_decision ⟨[⟨0, 0, 0, 10, 10⟩,
      ⟨1, 50, 0, 10, 10⟩, ⟨2, 100, 0, 10, 10⟩], updateChildrenInfo
      [⟨0, 0, 0, 10, 10⟩, ⟨1, 50, 0, 10, 10⟩, ⟨2, 100, 0, 10, 10⟩], 1⟩ 5
      rfl (by decide) (by decide)).1 ⟨0, 0, 10, 10, 0⟩ ⟨50, 0, 10, 10, 1⟩
      (by decide) (by decide) (by decide)
  exact ⟨h.1, h.2.2.1, h.2.2.2⟩

/-- C4 counterexample: with sentinel drag index -1 and a single child at
order 0 with top 0 and drag top 0, the claim's rules select target 0 and
predict the tracked drag index becomes 0, but the step leaves it at -1
because the table has no entry at key -1 itself. -/
theorem checkChildrenSort_decision_cex :
    (checkChildrenSortStep ⟨[⟨0, 0, 0, 10, 10⟩],
        updateChildrenInfo [⟨0, 0, 0, 10, 10⟩], -1⟩ 0).dragIndex = -1 ∧
    ((-1 : Int) ≠ 0) := by
  constructor
  · rfl
  · decide

/-- C9: when the tracked drag index is the sentinel -1 and the table has no
entry at key -1 (order values are never negative), an executed reorder
check changes nothing at all: no order write, no table change, no drag
index change. -/
theorem checkChildrenSort_sentinel (s : SortState) (t : Int)
    (h1 : s.dragIndex = -1) (h2 : s.childrenInfos (-1) = none) :
    checkChildrenSortStep s t = s :=
  checkChildrenSortStep_eq_self_of_none s t (by rw [h1]; exact h2)

/-- Witness for C9: a two-child table with drag index -1 and drag top 3 is
left untouched. -/
theorem checkChildrenSort_sentinel_witness :
    checkChildrenSortStep ⟨[⟨0, 0, 0, 10, 10⟩, ⟨1, 50, 0, 10, 10⟩],
        updateChildrenInfo [⟨0, 0, 0, 10, 10⟩, ⟨1, 50, 0, 10, 10⟩], -1⟩ 3
      = ⟨[⟨0, 0, 0, 10, 10⟩, ⟨1, 50, 0, 10, 10⟩],
        updateChildrenInfo [⟨0, 0, 0, 10, 10⟩, ⟨1, 50, 0, 10, 10⟩], -1⟩ :=
  checkChildrenSort_sentinel ⟨[⟨0, 0, 0, 10, 10⟩, ⟨1, 50, 0, 10, 10⟩],
    updateChildrenInfo [⟨0, 0, 0, 10, 10⟩, ⟨1, 50, 0, 10, 10⟩], -1⟩ 3 rfl
    (by decide)

lemma checkChildrenSortStep_empty_infos (s : SortState) (t : Int)
    (h : s.childrenInfos = fun _ => none) : checkChildrenSortStep s t = s :=
  checkChildrenSortStep_eq_self_of_none s t (by rw [h])

/-- C10: with `isSort = false` the sibling table is never populated, so the
reorder check — though still invoked on every drag move — finds no
neighbor entries and changes neither any child's order value nor the table
nor the drag index, for any number of moves. -/
theorem runSort_noSort (cs : List ChildElem) (d0 : Int) (ts : List Int) :
    runSort (initStateNoSort cs d0) ts = initStateNoSort cs d0 := by
  induction ts with
  | nil => rfl
  | cons t ts ih =>
      show runSort (checkChildrenSortStep (initStateNoSort cs d0) t) ts
        = initStateNoSort cs d0
      rw [checkChildrenSortStep_empty_infos (initStateNoSort cs d0) t rfl]
      exact ih

/-- C6 counterexample: two children with orders 0 and 1 (tops 0 and 50);
the child of order 0 is grabbed (originating order-index 0), one executed
reorder check at drag top 40 swaps it to index 1, and the release at page
point (150,150) inside pool A fires the callback with index 1 — the
tracked index at release, not the originating order-index 0. -/
theorem handleDraggableMouseup_cex :
    (runDragSession [("A", ⟨100, 100, 200, 100⟩)]
        [⟨0, 0, 0, 10, 10⟩, ⟨1, 50, 0, 10, 10⟩] 0 [40] 150 150).1
      = some ⟨"A", 1⟩ ∧
    (⟨"A", 1⟩ : DragPayload) ≠ ⟨"A", 0⟩ := by
  constructor
  · rfl
  · decide

end XDraggable
